import Mathlib

/-! ble-tpms-client: the advertising-report handler of `GapDemo`

A shallow embedding of `GapDemo::onAdvertisingReport` (src/main.cpp, lines 146-188)
together with the pieces of the BLE middleware it calls, and the properties of the
handler that the specification states.

The handler works on raw memory: the payload is an `mbed::Span<const uint8_t>`
(a pointer and a size), the parsed fields are sub-spans of it, and the two sensor
values are fetched through `uint32_t*` casts.  Memory is therefore modelled as a
flat map from addresses to bytes, and a span as a pair of a start address and a size.
-/

namespace BleTpms

/-! ## Memory, spans, addresses -/

/-- Flat byte-addressed memory.  A cell is read as a `uint8_t`, see `read8`. -/
abbrev Memory := Nat → Nat

/-- One `uint8_t` load. -/
def read8 (mem : Memory) (a : Nat) : Nat := mem a % 256

/-- One `uint32_t` load through a pointer cast, `*(uint32_t*)p`, on the little-endian
targets the firmware is built for; the result is reduced modulo `2^32`. -/
def read32 (mem : Memory) (a : Nat) : Nat :=
  (read8 mem a + 256 * read8 mem (a + 1) + 65536 * read8 mem (a + 2)
    + 16777216 * read8 mem (a + 3)) % 2 ^ 32

/-- What `printf` shows for a `%i` conversion whose argument is the 32-bit word `w`: the
word read as a two's complement `int` (32 bits on the targets of the firmware), so a
word with bit 31 set is shown as the negative number `w - 2^32`. -/
def as_int (w : Nat) : Int :=
  if w % 4294967296 < 2147483648 then Int.ofNat (w % 4294967296)
  else Int.subNatNat (w % 4294967296) 4294967296

/-- The bytes `memcpy` transfers: `n` consecutive bytes starting at `src`. -/
def memcpy (mem : Memory) (src : Nat) : Nat → List Nat
  | 0 => []
  | n + 1 => read8 mem src :: memcpy mem (src + 1) n

/-- Modelled from the spec: `mbed::Span<const uint8_t>` is middleware that is not part
of src/.  A span is a view: the address of its first byte and its number of bytes. -/
structure Span where
  data : Nat
  size : Nat
  deriving DecidableEq, Repr

/-- Modelled from the spec: element access `span[i]` as the handler uses it, that is
`&span[i]` is the address `data() + i`.  No comparison with `size()` takes place. -/
def Span.addr (s : Span) (i : Nat) : Nat := s.data + i

/-- Modelled from the spec: the byte `span[i]`. -/
def Span.get (mem : Memory) (s : Span) (i : Nat) : Nat := read8 mem (s.addr i)

/-- Modelled from the spec: `span.subspan(offset, count)`. -/
def Span.subspan (s : Span) (offset count : Nat) : Span :=
  { data := s.data + offset, size := count }

/-- The byte sequence a span denotes: the bytes at `data .. data + size - 1`. -/
def Span.bytes (mem : Memory) (s : Span) : List Nat := memcpy mem s.data s.size

/-- Modelled from the spec: `ble::address_t`, the six address bytes of a device.  The
address kind (public or random) is not part of this type; the event carries it
separately, see `AdvertisingReportEvent.peerAddressType`. -/
structure address_t where
  b0 : Fin 256
  b1 : Fin 256
  b2 : Fin 256
  b3 : Fin 256
  b4 : Fin 256
  b5 : Fin 256
  deriving DecidableEq, Repr

/-- Modelled from the spec: the value of a default-constructed `ble::address_t`.  The
type is middleware that is not part of src/; its default constructor fills the six
bytes with zero (00:00:00:00:00:00).  The handler has no separate "no target" value:
its member `target_addr` is a plain `ble::address_t`. -/
def address_t.zero : address_t := ⟨0, 0, 0, 0, 0, 0⟩

/-- Modelled from the spec: what the handler reads of a `ble::AdvertisingReportEvent`:
`getPeerAddress()`, `getPeerAddressType().value()` and `getPayload()`. -/
structure AdvertisingReportEvent where
  peerAddress : address_t
  peerAddressType : Nat
  payload : Span
  deriving DecidableEq, Repr

/-! ## The advertising data parser -/

/-- Modelled from the spec: `ble::AdvertisingDataParser::element_t`, one parsed field:
its type byte and a view of its value bytes. -/
structure element_t where
  type : Nat
  value : Span
  deriving DecidableEq, Repr

/-- Modelled from the spec: `ble::AdvertisingDataParser` is middleware that is not part
of src/; its state is the payload and a cursor (section 4.1). -/
structure AdvertisingDataParser where
  data : Span
  position : Nat
  deriving DecidableEq, Repr

/-- Modelled from the spec: the length byte `L` under the cursor. -/
def AdvertisingDataParser.current_length (mem : Memory) (p : AdvertisingDataParser) : Nat :=
  p.data.get mem p.position

/-- Modelled from the spec: section 4.1.  The sequence ends when no bytes remain or the
length byte is zero; it also ends (`TruncatedField`) when fewer than `L` bytes remain
after the length byte. -/
def AdvertisingDataParser.hasNext (mem : Memory) (p : AdvertisingDataParser) : Bool :=
  if p.data.size ≤ p.position then false
  else if p.current_length mem = 0 then false
  else if p.data.size - (p.position + 1) < p.current_length mem then false
  else true

/-- Modelled from the spec: section 4.1.  Read one type byte, then `L - 1` value bytes,
and advance the cursor by `1 + L`. -/
def AdvertisingDataParser.next (mem : Memory) (p : AdvertisingDataParser) :
    element_t × AdvertisingDataParser :=
  ({ type := p.data.get mem (p.position + 1),
     value := p.data.subspan (p.position + 2) (p.current_length mem - 1) },
   { p with position := p.position + (1 + p.current_length mem) })

/-- Modelled from the spec: the `TruncatedField` condition of section 4.1 at the cursor:
a non-zero length byte `L` is present and fewer than `L` bytes follow it. -/
def AdvertisingDataParser.truncated (mem : Memory) (p : AdvertisingDataParser) : Prop :=
  p.position < p.data.size ∧ p.current_length mem ≠ 0 ∧
    p.data.size - (p.position + 1) < p.current_length mem

/-! ## Constants and library routines used by the handler -/

/-- Modelled from the spec: `ble::adv_data_type_t::COMPLETE_LOCAL_NAME`, value taken
from the BLE advertising data type registry. -/
def COMPLETE_LOCAL_NAME : Nat := 0x09

/-- Modelled from the spec: `ble::adv_data_type_t::MANUFACTURER_SPECIFIC_DATA`, value
taken from the BLE advertising data type registry. -/
def MANUFACTURER_SPECIFIC_DATA : Nat := 0xFF

/-- The macro `#define LIMIT_SIZE(x, y) ((x > y)? y : x)`. -/
def LIMIT_SIZE (x y : Nat) : Nat := if x > y then y else x

/-- The constant `#define TPMS_MAX_NAME_LENGTH 16`. -/
def TPMS_MAX_NAME_LENGTH : Nat := 16

/-- The constant `#define TPMS_MAX_MFG_DATA_LENGTH 20`. -/
def TPMS_MAX_MFG_DATA_LENGTH : Nat := 20

/-- The string literal `"TPMS"` without its terminator. -/
def TPMS : List Nat := [0x54, 0x50, 0x4D, 0x53]

/-- The C string held in a character buffer: the bytes before the first zero byte. -/
def c_str (buf : List Nat) : List Nat := buf.takeWhile (fun c => c != 0)

/-- Whether `needle` occurs at the very start of `s`. -/
def startsWith : List Nat → List Nat → Bool
  | _, [] => true
  | [], _ :: _ => false
  | c :: s, d :: needle => c == d && startsWith s needle

/-- Whether `needle` occurs in `s` at some position. -/
def occursIn (needle : List Nat) : List Nat → Bool
  | [] => startsWith [] needle
  | c :: s => startsWith (c :: s) needle || occursIn needle s

/-- The test `strstr(haystack, needle) != NULL` of the C library: both arguments are
C strings, so only the bytes before the first zero byte of each take part. -/
def strstr (haystack needle : List Nat) : Bool := occursIn (c_str needle) (c_str haystack)

/-! ## The handler -/

/-- The members of `GapDemo` that are plain data.  `_ble`, `_gap` and `_event_queue`
are references to the middleware. -/
structure GapDemo where
  _is_in_scanning_mode : Bool
  _on_duration_end_id : Int
  target_addr : address_t
  deriving DecidableEq, Repr

/-- The constructor `GapDemo(ble, event_queue)`: `_is_in_scanning_mode(true)`,
`_on_duration_end_id(0)`, and `target_addr` default-constructed. -/
def GapDemo.init : GapDemo :=
  { _is_in_scanning_mode := true, _on_duration_end_id := 0, target_addr := address_t.zero }

/-- What the handler prints.  `found_tpms_beacon` stands for the three `printf` calls of
lines 169-172 (name as `%s`, peer address, peer address type) and `tire` for the
`printf` of line 184: the two numbers that appear in the printed line.  The arguments
are the `uint32_t` values `*tire_pressure` and `*tire_temperature` and both
conversions are `%i`, so each number is the argument shown as a signed integer, see
`as_int`. -/
inductive Output where
  | found_tpms_beacon (name : List Nat) (peer_addr : address_t) (peer_addr_type : Nat)
  | tire (tire_pressure tire_temperature : Int)
  deriving DecidableEq, Repr

/-- Lines 162-165: the buffer `name` after `memcpy(name, field.value.data(), size)` and
`name[size] = 0`, up to and including that terminator, where
`size = LIMIT_SIZE(field.value.size(), (TPMS_MAX_NAME_LENGTH-1))` as a `uint8_t`. -/
def name (mem : Memory) (field : element_t) : List Nat :=
  let size := LIMIT_SIZE field.value.size (TPMS_MAX_NAME_LENGTH - 1) % 256
  memcpy mem field.value.data size ++ [0]

/-- The body of the `while` loop, lines 157-186, for one parsed field. -/
def body (mem : Memory) (event : AdvertisingReportEvent) (self : GapDemo)
    (field : element_t) : GapDemo × List Output :=
  let r1 : GapDemo × List Output :=
    if field.type = COMPLETE_LOCAL_NAME then
      if strstr (name mem field) (TPMS ++ [0]) then
        ({ self with target_addr := event.peerAddress },
         [Output.found_tpms_beacon (c_str (name mem field)) event.peerAddress
            event.peerAddressType])
      else (self, [])
    else (self, [])
  let out2 : List Output :=
    if field.type = MANUFACTURER_SPECIFIC_DATA then
      if event.peerAddress = r1.1.target_addr then
        [Output.tire (as_int (read32 mem (field.value.addr 8)))
            (as_int (read32 mem (field.value.addr 12)))]
      else []
    else []
  (r1.1, r1.2 ++ out2)

/-- The loop `while (adv_parser.hasNext()) { field = adv_parser.next(); ... }` of lines
156-187, run for at most `fuel` iterations.  It returns the parser, the handler state
and the output at the point where it stops. -/
def loop (mem : Memory) (event : AdvertisingReportEvent) :
    Nat → AdvertisingDataParser → GapDemo → List Output →
      AdvertisingDataParser × GapDemo × List Output
  | 0, p, self, out => (p, self, out)
  | fuel + 1, p, self, out =>
    if p.hasNext mem then
      loop mem event fuel (p.next mem).2 (body mem event self (p.next mem).1).1
        (out ++ (body mem event self (p.next mem).1).2)
    else (p, self, out)

/-- The handler `GapDemo::onAdvertisingReport`: the parser is created on
`event.getPayload()` and the loop runs to its end (one iteration per payload byte is
always enough, see `loop_exits`).  The locals `is_tpms_beacon` and `mfg_data` are
written and never read, so they leave no trace here. -/
def onAdvertisingReport (mem : Memory) (self : GapDemo) (event : AdvertisingReportEvent) :
    GapDemo × List Output :=
  (loop mem event event.payload.size { data := event.payload, position := 0 } self []).2

/-! ## Derived notions used to state the properties -/

/-- The fields the parser yields from a given state, at most `fuel` of them. -/
def elements (mem : Memory) : Nat → AdvertisingDataParser → List element_t
  | 0, _ => []
  | fuel + 1, p =>
    if p.hasNext mem then (p.next mem).1 :: elements mem fuel (p.next mem).2 else []

/-- The field sequence of a payload. -/
def fields (mem : Memory) (payload : Span) : List element_t :=
  elements mem payload.size { data := payload, position := 0 }

/-- The loop body applied to a list of fields in order, outputs concatenated. -/
def runFields (mem : Memory) (event : AdvertisingReportEvent) :
    GapDemo → List element_t → GapDemo × List Output
  | self, [] => (self, [])
  | self, f :: fs =>
    ((runFields mem event (body mem event self f).1 fs).1,
     (body mem event self f).2 ++ (runFields mem event (body mem event self f).1 fs).2)

/-- The condition of lines 159 and 168 together: the field is a complete local name and
`strstr(name, "TPMS")` finds an occurrence. -/
def is_tpms_name (mem : Memory) (field : element_t) : Bool :=
  decide (field.type = COMPLETE_LOCAL_NAME) && strstr (name mem field) (TPMS ++ [0])

/-- The notification the handler prints for a matching name field. -/
def found (mem : Memory) (event : AdvertisingReportEvent) (field : element_t) : Output :=
  Output.found_tpms_beacon (c_str (name mem field)) event.peerAddress event.peerAddressType

/-- The reading the handler prints for a manufacturer-data field. -/
def reading (mem : Memory) (field : element_t) : Output :=
  Output.tire (as_int (read32 mem (field.value.addr 8)))
            (as_int (read32 mem (field.value.addr 12)))

/-- Whether an output is a beacon-found notification. -/
def Output.isFound : Output → Bool
  | Output.found_tpms_beacon _ _ _ => true
  | Output.tire _ _ => false

/-- The encoding of one field `(type, value)`: length byte, type byte, value bytes. -/
def encode (f : Nat × List Nat) : List Nat := (f.2.length + 1) :: f.1 :: f.2

/-- The encoding of a sequence of fields, one after the other. -/
def encodeAll : List (Nat × List Nat) → List Nat
  | [] => []
  | f :: fs => encode f ++ encodeAll fs

/-- Where the fields of an encoded sequence lie when the sequence starts at address `a`. -/
def layout : Nat → List (Nat × List Nat) → List element_t
  | _, [] => []
  | a, f :: fs =>
    { type := f.1, value := { data := a + 2, size := f.2.length } } ::
      layout (a + 2 + f.2.length) fs

/-- A memory that holds the given bytes from address 0 on, and zero elsewhere. -/
def memOf (l : List Nat) : Memory := fun a => l.getD a 0

/-- The ASCII bytes of a string. -/
def ascii (s : String) : List Nat := s.toList.map Char.toNat

/-! ## Concrete inputs -/

/-- The address AA:BB:CC:DD:EE:01. -/
def aa01 : address_t := ⟨0xAA, 0xBB, 0xCC, 0xDD, 0xEE, 0x01⟩

/-- The address AA:BB:CC:DD:EE:02. -/
def aa02 : address_t := ⟨0xAA, 0xBB, 0xCC, 0xDD, 0xEE, 0x02⟩

/-- A handler that tracks the address `a`. -/
def tracking (a : address_t) : GapDemo := { GapDemo.init with target_addr := a }

/-- A payload that is one field of the given type and value. -/
def single (type : Nat) (value : List Nat) : List Nat := encode (type, value)

/-- An event from `peer` (public address) whose payload is the first `n` bytes of memory. -/
def eventAt (peer : address_t) (n : Nat) : AdvertisingReportEvent :=
  { peerAddress := peer, peerAddressType := 0, payload := { data := 0, size := n } }

/-- A 15-byte manufacturer-data value: 8 zero bytes, `01 00 00 00`, `02 00 00`. -/
def short_value : List Nat := [0, 0, 0, 0, 0, 0, 0, 0, 1, 0, 0, 0, 2, 0, 0]

/-- A 16-byte manufacturer-data value: 8 zero bytes, `01 00 00 00`, `02 00 00 00`. -/
def value_1_2 : List Nat := [0, 0, 0, 0, 0, 0, 0, 0, 1, 0, 0, 0, 2, 0, 0, 0]

/-- A 16-byte manufacturer-data value that encodes pressure 220 and temperature 25. -/
def value_220_25 : List Nat := [0, 0, 0, 0, 0, 0, 0, 0, 220, 0, 0, 0, 25, 0, 0, 0]

/-- A 16-byte manufacturer-data value whose words at offsets 8 and 12 have bit 31 set:
8 zero bytes, `FF FF FF FF`, `00 00 00 80`. -/
def value_high : List Nat := [0, 0, 0, 0, 0, 0, 0, 0, 0xFF, 0xFF, 0xFF, 0xFF, 0, 0, 0, 0x80]

/-! ## Memory and C string lemmas -/

theorem read8_lt (mem : Memory) (a : Nat) : read8 mem a < 256 := by
  unfold read8; omega

theorem memcpy_length (mem : Memory) (n : Nat) : ∀ a, (memcpy mem a n).length = n := by
  induction n with
  | zero => intro a; rfl
  | succ n ih => intro a; simp [memcpy, ih]

theorem memcpy_add (mem : Memory) (m k : Nat) :
    ∀ a, memcpy mem a (m + k) = memcpy mem a m ++ memcpy mem (a + m) k := by
  induction m with
  | zero => intro a; simp [memcpy]
  | succ m ih =>
    intro a
    have h : m + 1 + k = (m + k) + 1 := by omega
    rw [h]
    simp only [memcpy, List.cons_append, ih]
    have h2 : a + 1 + m = a + (m + 1) := by omega
    rw [h2]

theorem memcpy_take (mem : Memory) (n k : Nat) (h : k ≤ n) (a : Nat) :
    (memcpy mem a n).take k = memcpy mem a k := by
  obtain ⟨d, rfl⟩ : ∃ d, n = k + d := ⟨n - k, by omega⟩
  rw [memcpy_add, List.take_left' (memcpy_length mem k a)]

theorem memcpy_drop (mem : Memory) (n k : Nat) (h : k ≤ n) (a : Nat) :
    (memcpy mem a n).drop k = memcpy mem (a + k) (n - k) := by
  obtain ⟨d, rfl⟩ : ∃ d, n = k + d := ⟨n - k, by omega⟩
  rw [memcpy_add, List.drop_left' (memcpy_length mem k a)]
  congr 1; omega

theorem memcpy_getD (mem : Memory) (n : Nat) :
    ∀ a i, i < n → (memcpy mem a n).getD i 0 = read8 mem (a + i) := by
  induction n with
  | zero => intro a i h; omega
  | succ n ih =>
    intro a i h
    cases i with
    | zero => simp [memcpy]
    | succ i =>
      simp only [memcpy, List.getD_cons_succ]
      rw [ih (a + 1) i (by omega)]
      congr 1; omega

theorem memcpy_congr (mem mem2 : Memory) (n : Nat) :
    ∀ a, (∀ i, i < n → read8 mem2 (a + i) = read8 mem (a + i)) →
      memcpy mem2 a n = memcpy mem a n := by
  induction n with
  | zero => intro a _; rfl
  | succ n ih =>
    intro a h
    simp only [memcpy]
    rw [ih (a + 1) (fun i hi => by have := h (i + 1) (by omega); rwa [show a + 1 + i = a + (i + 1) by omega])]
    have := h 0 (by omega)
    simp only [Nat.add_zero] at this
    rw [this]

theorem memcpy_cons (mem : Memory) (a n b : Nat) (tl : List Nat)
    (h : memcpy mem a n = b :: tl) :
    0 < n ∧ read8 mem a = b ∧ memcpy mem (a + 1) (n - 1) = tl := by
  cases n with
  | zero => simp [memcpy] at h
  | succ n =>
    simp only [memcpy, List.cons.injEq] at h
    exact ⟨by omega, h.1, by simpa using h.2⟩

theorem startsWith_iff (needle : List Nat) : ∀ s, startsWith s needle = true ↔ needle <+: s := by
  induction needle with
  | nil => intro s; simp [startsWith]
  | cons d needle ih =>
    intro s
    cases s with
    | nil => simp [startsWith]
    | cons c s =>
      simp only [startsWith, Bool.and_eq_true, beq_iff_eq, ih, List.cons_prefix_cons]
      constructor
      · rintro ⟨h1, h2⟩; exact ⟨h1.symm, h2⟩
      · rintro ⟨h1, h2⟩; exact ⟨h1.symm, h2⟩

theorem occursIn_iff (needle : List Nat) : ∀ s, occursIn needle s = true ↔ needle <:+: s := by
  intro s
  induction s with
  | nil =>
    simp only [occursIn, startsWith_iff]
    constructor
    · intro h; exact h.isInfix
    · intro h; rw [List.infix_nil] at h; subst h; exact List.prefix_refl _
  | cons c s ih =>
    simp only [occursIn, Bool.or_eq_true, startsWith_iff, ih]
    rw [List.infix_cons_iff]

theorem c_str_append_zero (l : List Nat) : c_str (l ++ [0]) = c_str l := by
  induction l with
  | nil => rfl
  | cons c l ih =>
    unfold c_str at ih ⊢
    simp only [List.cons_append, List.takeWhile_cons]
    split
    · rw [ih]
    · rfl

theorem c_str_of_no_zero (l : List Nat) (h : 0 ∉ l) : c_str l = l := by
  unfold c_str
  rw [List.takeWhile_eq_self_iff]
  intro c hc
  simp only [bne_iff_ne, ne_eq]
  intro h0; subst h0; exact h hc

theorem c_str_TPMS : c_str (TPMS ++ [0]) = TPMS := by decide

theorem strstr_iff (buf : List Nat) :
    strstr (buf ++ [0]) (TPMS ++ [0]) = true ↔ TPMS <:+: c_str buf := by
  unfold strstr
  rw [c_str_TPMS, c_str_append_zero, occursIn_iff]

/-! ## The parser and the loop -/

theorem hasNext_iff (mem : Memory) (p : AdvertisingDataParser) :
    p.hasNext mem = true ↔
      p.position < p.data.size ∧ p.current_length mem ≠ 0 ∧
        p.current_length mem ≤ p.data.size - (p.position + 1) := by
  unfold AdvertisingDataParser.hasNext
  split
  · simp; omega
  · split
    · simp; omega
    · split
      · simp; omega
      · simp; omega

theorem loop_exits (mem : Memory) (event : AdvertisingReportEvent) (fuel : Nat) :
    ∀ (p : AdvertisingDataParser) (self : GapDemo) (out : List Output),
      p.data.size - p.position ≤ fuel →
        (loop mem event fuel p self out).1.hasNext mem = false := by
  induction fuel with
  | zero =>
    intro p self out h
    simp only [loop]
    cases hn : p.hasNext mem with
    | false => rfl
    | true => rw [hasNext_iff] at hn; omega
  | succ fuel ih =>
    intro p self out h
    simp only [loop]
    cases hn : p.hasNext mem with
    | false => simpa using hn
    | true =>
      simp only [if_true]
      apply ih
      rw [hasNext_iff] at hn
      simp only [AdvertisingDataParser.next]
      omega

theorem loop_eq_runFields (mem : Memory) (event : AdvertisingReportEvent) (fuel : Nat) :
    ∀ (p : AdvertisingDataParser) (self : GapDemo) (out : List Output),
      (loop mem event fuel p self out).2 =
        ((runFields mem event self (elements mem fuel p)).1,
         out ++ (runFields mem event self (elements mem fuel p)).2) := by
  induction fuel with
  | zero => intro p self out; simp [loop, elements, runFields]
  | succ fuel ih =>
    intro p self out
    simp only [loop, elements]
    cases hn : p.hasNext mem with
    | false => simp [runFields]
    | true => simp [runFields, ih]

theorem onAdvertisingReport_eq (mem : Memory) (self : GapDemo) (event : AdvertisingReportEvent) :
    onAdvertisingReport mem self event = runFields mem event self (fields mem event.payload) := by
  unfold onAdvertisingReport fields
  rw [loop_eq_runFields]
  simp

theorem types_ne : COMPLETE_LOCAL_NAME ≠ MANUFACTURER_SPECIFIC_DATA := by decide

theorem body_eq (mem : Memory) (event : AdvertisingReportEvent) (self : GapDemo) (field : element_t) :
    body mem event self field =
      if is_tpms_name mem field = true then
        ({ self with target_addr := event.peerAddress }, [found mem event field])
      else if field.type = MANUFACTURER_SPECIFIC_DATA ∧ event.peerAddress = self.target_addr then
        (self, [reading mem field])
      else (self, []) := by
  unfold body is_tpms_name found reading
  by_cases h1 : field.type = COMPLETE_LOCAL_NAME
  · have h2 : field.type ≠ MANUFACTURER_SPECIFIC_DATA := by rw [h1]; exact types_ne
    by_cases h3 : strstr (name mem field) (TPMS ++ [0]) = true
    · simp [h1, h3, types_ne]
    · simp [h1, h3, types_ne]
  · by_cases h2 : field.type = MANUFACTURER_SPECIFIC_DATA
    · by_cases h4 : event.peerAddress = self.target_addr
      · simp [h2, h4, types_ne.symm]
      · simp [h2, h4, types_ne.symm]
    · simp [h1, h2]

theorem body_state (mem : Memory) (event : AdvertisingReportEvent) (self : GapDemo) (field : element_t) :
    (body mem event self field).1 =
      if is_tpms_name mem field = true then { self with target_addr := event.peerAddress } else self := by
  rw [body_eq]
  split
  · rfl
  · split <;> rfl

theorem runFields_state (mem : Memory) (event : AdvertisingReportEvent) (fs : List element_t) :
    ∀ self, (runFields mem event self fs).1 =
      if fs.any (is_tpms_name mem) = true then { self with target_addr := event.peerAddress }
      else self := by
  induction fs with
  | nil => intro self; simp [runFields]
  | cons f fs ih =>
    intro self
    simp only [runFields, ih, body_state, List.any_cons, Bool.or_eq_true]
    by_cases h1 : is_tpms_name mem f = true
    · by_cases h2 : fs.any (is_tpms_name mem) = true
      · simp [h1, h2]
      · simp [h1, h2]
    · by_cases h2 : fs.any (is_tpms_name mem) = true
      · simp [h1, h2]
      · simp [h1, h2]

theorem runFields_found (mem : Memory) (event : AdvertisingReportEvent) (fs : List element_t) :
    ∀ self, (runFields mem event self fs).2.filter Output.isFound =
      (fs.filter (is_tpms_name mem)).map (found mem event) := by
  induction fs with
  | nil => intro self; simp [runFields]
  | cons f fs ih =>
    intro self
    simp only [runFields, List.filter_append, ih]
    rw [body_eq]
    by_cases h1 : is_tpms_name mem f = true
    · simp [h1, found, Output.isFound, List.filter_cons]
    · by_cases h2 : f.type = MANUFACTURER_SPECIFIC_DATA ∧ event.peerAddress = self.target_addr
      · simp [h1, h2, reading, Output.isFound, List.filter_cons]
      · simp [h1, h2, List.filter_cons]

theorem name_eq (mem : Memory) (field : element_t) :
    name mem field = (field.value.bytes mem).take 15 ++ [0] := by
  have hs : LIMIT_SIZE field.value.size (TPMS_MAX_NAME_LENGTH - 1) % 256
      = min 15 field.value.size := by
    unfold LIMIT_SIZE TPMS_MAX_NAME_LENGTH
    split <;> omega
  show memcpy mem field.value.data (LIMIT_SIZE field.value.size (TPMS_MAX_NAME_LENGTH - 1) % 256)
      ++ [0] = (memcpy mem field.value.data field.value.size).take 15 ++ [0]
  rw [hs]
  by_cases h : field.value.size > 15
  · rw [Nat.min_eq_left (by omega), memcpy_take mem _ 15 (by omega)]
  · rw [Nat.min_eq_right (by omega), List.take_of_length_le]
    rw [memcpy_length]; omega

theorem c_str_name (mem : Memory) (field : element_t) :
    c_str (name mem field) = c_str ((field.value.bytes mem).take 15) := by
  rw [name_eq, c_str_append_zero]

theorem is_tpms_name_iff (mem : Memory) (field : element_t) :
    is_tpms_name mem field = true ↔
      field.type = COMPLETE_LOCAL_NAME ∧ TPMS <:+: c_str ((field.value.bytes mem).take 15) := by
  unfold is_tpms_name
  rw [Bool.and_eq_true, decide_eq_true_iff, name_eq, strstr_iff]

theorem name_congr (mem mem2 : Memory) (field : element_t)
    (h : ∀ i, i < field.value.size → i < 15 →
      read8 mem2 (field.value.data + i) = read8 mem (field.value.data + i)) :
    name mem2 field = name mem field := by
  have hs : LIMIT_SIZE field.value.size (TPMS_MAX_NAME_LENGTH - 1) % 256
      = min 15 field.value.size := by
    unfold LIMIT_SIZE TPMS_MAX_NAME_LENGTH
    split <;> omega
  show memcpy mem2 field.value.data (LIMIT_SIZE field.value.size (TPMS_MAX_NAME_LENGTH - 1) % 256)
      ++ [0] = memcpy mem field.value.data
        (LIMIT_SIZE field.value.size (TPMS_MAX_NAME_LENGTH - 1) % 256) ++ [0]
  rw [hs, memcpy_congr mem mem2]
  intro i hi
  exact h i (by omega) (by omega)

/-! ## Decoding of manufacturer data -/

theorem read32_bytes (mem : Memory) (s : Span) (i : Nat) (h : i + 4 ≤ s.size) :
    read32 mem (s.addr i) =
      (s.bytes mem).getD i 0 + 256 * (s.bytes mem).getD (i + 1) 0
        + 65536 * (s.bytes mem).getD (i + 2) 0 + 16777216 * (s.bytes mem).getD (i + 3) 0 := by
  unfold Span.bytes
  rw [memcpy_getD mem _ _ i (by omega), memcpy_getD mem _ _ (i + 1) (by omega),
    memcpy_getD mem _ _ (i + 2) (by omega), memcpy_getD mem _ _ (i + 3) (by omega)]
  unfold read32 Span.addr
  have h0 := read8_lt mem (s.data + i)
  have h1 := read8_lt mem (s.data + i + 1)
  have h2 := read8_lt mem (s.data + i + 2)
  have h3 := read8_lt mem (s.data + i + 3)
  simp only [← Nat.add_assoc]
  apply Nat.mod_eq_of_lt
  omega

theorem read32_lt (mem : Memory) (a : Nat) : read32 mem a < 2 ^ 32 := by
  unfold read32
  exact Nat.mod_lt _ (by norm_num)

/-- C1 (the code at the failing input).  The tracked address is AA:BB:CC:DD:EE:01 and an
advertisement from that address carries a manufacturer-data field whose value has 15
bytes.  The handler prints a reading all the same; its temperature contains the byte
that follows the value: the length byte of the next field (2, then 3), or, when the
field ends the payload, the byte that lies after the payload buffer (here 0x7F). -/
theorem short_manufacturer_data_is_read :
    fields (memOf (single 0xFF short_value ++ [2, 1, 6])) ⟨0, 20⟩
        = [⟨0xFF, ⟨2, 15⟩⟩, ⟨1, ⟨19, 1⟩⟩] ∧
      onAdvertisingReport (memOf (single 0xFF short_value ++ [2, 1, 6])) (tracking aa01)
          (eventAt aa01 20) = (tracking aa01, [Output.tire 1 (2 + 2 * 16777216)]) ∧
      onAdvertisingReport (memOf (single 0xFF short_value ++ [3, 1, 6, 0])) (tracking aa01)
          (eventAt aa01 21) = (tracking aa01, [Output.tire 1 (2 + 3 * 16777216)]) ∧
      onAdvertisingReport (memOf (single 0xFF short_value ++ [0x7F])) (tracking aa01)
          (eventAt aa01 17) = (tracking aa01, [Output.tire 1 (2 + 0x7F * 16777216)]) := by
  decide

theorem as_int_of_lt (w : Nat) (h : w < 2 ^ 31) : as_int w = (w : Int) := by
  unfold as_int
  have h1 : w % 4294967296 = w := Nat.mod_eq_of_lt (by omega)
  rw [h1, if_pos (by omega)]
  rfl

theorem as_int_of_ge (w : Nat) (h : 2 ^ 31 ≤ w) (h32 : w < 2 ^ 32) :
    as_int w = (w : Int) - 2 ^ 32 := by
  unfold as_int
  have h1 : w % 4294967296 = w := Nat.mod_eq_of_lt (by omega)
  rw [h1, if_neg (by omega), Int.subNatNat_eq_coe]
  norm_num

/-- The reading of a manufacturer-data field that arrives from the tracked address and
whose value `v` has at least 16 bytes: the handler prints exactly one reading and
leaves the tracked address unchanged.  The two words it fetches are
`v[8] + 256 v[9] + 65536 v[10] + 16777216 v[11]` and
`v[12] + 256 v[13] + 65536 v[14] + 16777216 v[15]`, both below `2^32`, and each is
printed as a signed integer: as the word itself when `v[11]` (respectively `v[15]`)
is below `0x80`, and as the word minus `2^32` otherwise. -/
theorem manufacturer_data_reading (mem : Memory) (self : GapDemo)
    (event : AdvertisingReportEvent) (field : element_t)
    (htype : field.type = MANUFACTURER_SPECIFIC_DATA)
    (hpeer : event.peerAddress = self.target_addr)
    (hsize : 16 ≤ field.value.size) :
    body mem event self field =
        (self, [Output.tire
          (as_int ((field.value.bytes mem).getD 8 0 + 256 * (field.value.bytes mem).getD 9 0
            + 65536 * (field.value.bytes mem).getD 10 0
            + 16777216 * (field.value.bytes mem).getD 11 0))
          (as_int ((field.value.bytes mem).getD 12 0 + 256 * (field.value.bytes mem).getD 13 0
            + 65536 * (field.value.bytes mem).getD 14 0
            + 16777216 * (field.value.bytes mem).getD 15 0))]) ∧
      (field.value.bytes mem).getD 8 0 + 256 * (field.value.bytes mem).getD 9 0
            + 65536 * (field.value.bytes mem).getD 10 0
            + 16777216 * (field.value.bytes mem).getD 11 0 < 2 ^ 32 ∧
      (field.value.bytes mem).getD 12 0 + 256 * (field.value.bytes mem).getD 13 0
            + 65536 * (field.value.bytes mem).getD 14 0
            + 16777216 * (field.value.bytes mem).getD 15 0 < 2 ^ 32 ∧
      (∀ w : Nat, w < 2 ^ 32 →
        ((w < 2 ^ 31 → as_int w = (w : Int)) ∧ (2 ^ 31 ≤ w → as_int w = (w : Int) - 2 ^ 32))) := by
  have hp := read32_bytes mem field.value 8 (by omega)
  have ht := read32_bytes mem field.value 12 (by omega)
  have hnot : ¬ (is_tpms_name mem field = true) := by
    rw [is_tpms_name_iff, htype]
    exact fun h => types_ne h.1.symm
  refine ⟨?_, ?_, ?_, ?_⟩
  · rw [body_eq, if_neg hnot, if_pos ⟨htype, hpeer⟩, reading, hp, ht]
  · rw [← hp]; exact read32_lt _ _
  · rw [← ht]; exact read32_lt _ _
  · intro w hw
    exact ⟨as_int_of_lt w, fun h => as_int_of_ge w h hw⟩

/-- The two values named by the specification, as the field `⟨0xFF, value⟩` of a payload
received from the tracked address: pressure 1 and temperature 2, pressure 220 and
temperature 25.  All four words are below `2^31` and are printed as they are. -/
theorem manufacturer_data_reading_small :
    body (memOf (single 0xFF value_1_2)) (eventAt aa01 18) (tracking aa01) ⟨0xFF, ⟨2, 16⟩⟩
        = (tracking aa01, [Output.tire 1 2]) ∧
      body (memOf (single 0xFF value_220_25)) (eventAt aa01 18) (tracking aa01) ⟨0xFF, ⟨2, 16⟩⟩
        = (tracking aa01, [Output.tire 220 25]) :=
  ⟨(manufacturer_data_reading (memOf (single 0xFF value_1_2)) (tracking aa01)
      (eventAt aa01 18) ⟨0xFF, ⟨2, 16⟩⟩ (by decide) (by decide) (by decide)).1,
   (manufacturer_data_reading (memOf (single 0xFF value_220_25)) (tracking aa01)
      (eventAt aa01 18) ⟨0xFF, ⟨2, 16⟩⟩ (by decide) (by decide) (by decide)).1⟩

/-- C2 (the code at the failing input).  The tracked address is AA:BB:CC:DD:EE:01 and an
advertisement from that address carries one manufacturer-data field whose 16-byte
value holds `FF FF FF FF` at offset 8 and `00 00 00 80` at offset 12.  The claimed
unsigned values are 4294967295 and 2147483648; the handler fetches these two words
and prints them with `%i`, so the reading it surfaces is pressure -1 and temperature
-2147483648. -/
theorem manufacturer_data_printed_signed :
    fields (memOf (single 0xFF value_high)) ⟨0, 18⟩ = [⟨0xFF, ⟨2, 16⟩⟩] ∧
      Span.bytes (memOf (single 0xFF value_high)) ⟨2, 16⟩ = value_high ∧
      value_high.getD 8 0 + 256 * value_high.getD 9 0 + 65536 * value_high.getD 10 0
        + 16777216 * value_high.getD 11 0 = 4294967295 ∧
      value_high.getD 12 0 + 256 * value_high.getD 13 0 + 65536 * value_high.getD 14 0
        + 16777216 * value_high.getD 15 0 = 2147483648 ∧
      read32 (memOf (single 0xFF value_high)) 10 = 4294967295 ∧
      read32 (memOf (single 0xFF value_high)) 14 = 2147483648 ∧
      onAdvertisingReport (memOf (single 0xFF value_high)) (tracking aa01) (eventAt aa01 18)
        = (tracking aa01, [Output.tire (-1) (-2147483648)]) := by
  decide

/-! ## Name matching -/

theorem body_name_field (mem : Memory) (self : GapDemo) (event : AdvertisingReportEvent)
    (field : element_t) (htype : field.type = COMPLETE_LOCAL_NAME) :
    (TPMS <:+: c_str ((field.value.bytes mem).take 15) →
        body mem event self field =
          ({ self with target_addr := event.peerAddress },
           [Output.found_tpms_beacon (c_str ((field.value.bytes mem).take 15))
              event.peerAddress event.peerAddressType])) ∧
      (¬ TPMS <:+: c_str ((field.value.bytes mem).take 15) →
        body mem event self field = (self, [])) := by
  constructor
  · intro h
    have hm : is_tpms_name mem field = true := (is_tpms_name_iff mem field).2 ⟨htype, h⟩
    rw [body_eq, if_pos hm, found, c_str_name]
  · intro h
    have hm : ¬ (is_tpms_name mem field = true) := fun hm => h ((is_tpms_name_iff mem field).1 hm).2
    have hn : ¬ (field.type = MANUFACTURER_SPECIFIC_DATA ∧ event.peerAddress = self.target_addr) := by
      rw [htype]; exact fun h => types_ne h.1
    rw [body_eq, if_neg hm, if_neg hn]

/-- C3 (counterexample).  Two name values that are no longer than
`TPMS_MAX_NAME_LENGTH = 16` and contain the four bytes "TPMS" contiguously, and yet are
not matched: a zero byte followed by "TPMS" (5 bytes), and twelve letters `A` followed
by "TPMS" (16 bytes). -/
theorem name_match_counterexample :
    (TPMS <:+: Span.bytes (memOf (single 9 (0 :: TPMS))) ⟨2, 5⟩ ∧
      5 ≤ TPMS_MAX_NAME_LENGTH ∧
      body (memOf (single 9 (0 :: TPMS))) (eventAt aa01 7) GapDemo.init ⟨9, ⟨2, 5⟩⟩
        = (GapDemo.init, [])) ∧
    (TPMS <:+: Span.bytes (memOf (single 9 (ascii "AAAAAAAAAAAATPMS"))) ⟨2, 16⟩ ∧
      16 ≤ TPMS_MAX_NAME_LENGTH ∧
      body (memOf (single 9 (ascii "AAAAAAAAAAAATPMS"))) (eventAt aa01 18) GapDemo.init
        ⟨9, ⟨2, 16⟩⟩ = (GapDemo.init, [])) := by
  decide

/-- C3 (amended).  For a complete-local-name field with value `v`, the handler reports a
match (it prints the beacon and tracks the peer address) if and only if "TPMS" occurs
contiguously in the C string copied from the value, that is within the first 15 bytes
of `v` and before the first zero byte among them; otherwise it has no effect.  When `v`
has at most 15 bytes and no zero byte this is: if and only if "TPMS" occurs
contiguously, in that case, at some position of `v`. -/
theorem name_match (mem : Memory) (self : GapDemo) (event : AdvertisingReportEvent)
    (field : element_t) (htype : field.type = COMPLETE_LOCAL_NAME) :
    (TPMS <:+: c_str ((field.value.bytes mem).take 15) →
        body mem event self field =
          ({ self with target_addr := event.peerAddress },
           [Output.found_tpms_beacon (c_str ((field.value.bytes mem).take 15))
              event.peerAddress event.peerAddressType])) ∧
      (¬ TPMS <:+: c_str ((field.value.bytes mem).take 15) →
        body mem event self field = (self, [])) ∧
      (field.value.size ≤ 15 → 0 ∉ field.value.bytes mem →
        (TPMS <:+: field.value.bytes mem →
          body mem event self field =
            ({ self with target_addr := event.peerAddress },
             [Output.found_tpms_beacon (field.value.bytes mem) event.peerAddress
                event.peerAddressType])) ∧
        (¬ TPMS <:+: field.value.bytes mem → body mem event self field = (self, []))) := by
  refine ⟨(body_name_field mem self event field htype).1,
    (body_name_field mem self event field htype).2, ?_⟩
  intro hsize hzero
  have hv : c_str ((field.value.bytes mem).take 15) = field.value.bytes mem := by
    rw [List.take_of_length_le, c_str_of_no_zero _ hzero]
    unfold Span.bytes
    rw [memcpy_length]; exact hsize
  have h := body_name_field mem self event field htype
  rw [hv] at h
  exact h

/-- C3 at concrete inputs: "MY-TPMS-42" and "MYTPMS" are matched, "tpms" and
"SmartBulb" are not. -/
theorem name_match_witness :
    body (memOf (single 9 (ascii "MY-TPMS-42"))) (eventAt aa01 12) GapDemo.init ⟨9, ⟨2, 10⟩⟩
        = (tracking aa01, [Output.found_tpms_beacon (ascii "MY-TPMS-42") aa01 0]) ∧
      body (memOf (single 9 (ascii "MYTPMS"))) (eventAt aa01 8) GapDemo.init ⟨9, ⟨2, 6⟩⟩
        = (tracking aa01, [Output.found_tpms_beacon (ascii "MYTPMS") aa01 0]) ∧
      body (memOf (single 9 (ascii "tpms"))) (eventAt aa01 6) GapDemo.init ⟨9, ⟨2, 4⟩⟩
        = (GapDemo.init, []) ∧
      body (memOf (single 9 (ascii "SmartBulb"))) (eventAt aa01 11) GapDemo.init ⟨9, ⟨2, 9⟩⟩
        = (GapDemo.init, []) :=
  ⟨((name_match (memOf (single 9 (ascii "MY-TPMS-42"))) GapDemo.init (eventAt aa01 12)
      ⟨9, ⟨2, 10⟩⟩ (by decide)).2.2 (by decide) (by decide)).1 (by decide),
   ((name_match (memOf (single 9 (ascii "MYTPMS"))) GapDemo.init (eventAt aa01 8)
      ⟨9, ⟨2, 6⟩⟩ (by decide)).2.2 (by decide) (by decide)).1 (by decide),
   ((name_match (memOf (single 9 (ascii "tpms"))) GapDemo.init (eventAt aa01 6)
      ⟨9, ⟨2, 4⟩⟩ (by decide)).2.2 (by decide) (by decide)).2 (by decide),
   ((name_match (memOf (single 9 (ascii "SmartBulb"))) GapDemo.init (eventAt aa01 11)
      ⟨9, ⟨2, 9⟩⟩ (by decide)).2.2 (by decide) (by decide)).2 (by decide)⟩

theorem c_str_isPrefix (l : List Nat) : c_str l <+: l := by
  unfold c_str
  exact List.takeWhile_prefix _

theorem c_str_length_le (l : List Nat) : (c_str l).length ≤ l.length :=
  (c_str_isPrefix l).length_le

theorem body_name_congr (mem mem2 : Memory) (self : GapDemo) (event : AdvertisingReportEvent)
    (field : element_t) (htype : field.type = COMPLETE_LOCAL_NAME)
    (h : name mem2 field = name mem field) :
    body mem2 event self field = body mem event self field := by
  have hn : ¬ (field.type = MANUFACTURER_SPECIFIC_DATA ∧ event.peerAddress = self.target_addr) := by
    rw [htype]; exact fun h => types_ne h.1
  rw [body_eq, body_eq, if_neg hn, if_neg hn]
  unfold is_tpms_name found
  rw [h]

/-- C4 (counterexample).  A 20-byte name value whose bytes 12..15 are "TPMS": its first
16 bytes contain "TPMS", but the name the handler matches is the first 15 bytes, which
do not, and nothing is reported.  And a 20-byte value that starts with "TPMS" and a
zero byte: the name matched and reported is "TPMS", not the first 16 bytes. -/
theorem name_truncation_counterexample :
    (TPMS <:+: (Span.bytes (memOf (single 9 (ascii "AAAAAAAAAAAATPMSAAAA"))) ⟨2, 20⟩).take 16 ∧
      c_str (name (memOf (single 9 (ascii "AAAAAAAAAAAATPMSAAAA"))) ⟨9, ⟨2, 20⟩⟩)
        = ascii "AAAAAAAAAAAATPM" ∧
      body (memOf (single 9 (ascii "AAAAAAAAAAAATPMSAAAA"))) (eventAt aa01 22) GapDemo.init
        ⟨9, ⟨2, 20⟩⟩ = (GapDemo.init, [])) ∧
    ((Span.bytes (memOf (single 9 (ascii "TPMS" ++ 0 :: ascii "AAAAAAAAAAAAAAA"))) ⟨2, 20⟩).take 16
        = ascii "TPMS" ++ 0 :: ascii "AAAAAAAAAAA" ∧
      body (memOf (single 9 (ascii "TPMS" ++ 0 :: ascii "AAAAAAAAAAAAAAA"))) (eventAt aa01 22)
        GapDemo.init ⟨9, ⟨2, 20⟩⟩
        = (tracking aa01, [Output.found_tpms_beacon (ascii "TPMS") aa01 0])) := by
  decide

/-- C4 (amended).  For a complete-local-name field whose value `v` is longer than 15
bytes (`TPMS_MAX_NAME_LENGTH - 1`), the name that is matched and reported is the first
15 bytes of `v`, cut before the first zero byte among them if there is one (so exactly
the first 15 bytes when none of them is zero).  It has at most 15 bytes, it is an
initial segment of `v`, and neither it nor the effect of the handler depends on any
byte of memory other than the first 15 bytes of `v`, in particular not on the byte
that follows `v`. -/
theorem name_truncation (mem : Memory) (self : GapDemo) (event : AdvertisingReportEvent)
    (field : element_t) (htype : field.type = COMPLETE_LOCAL_NAME)
    (hlong : TPMS_MAX_NAME_LENGTH - 1 < field.value.size) :
    body mem event self field =
        (if strstr (name mem field) (TPMS ++ [0]) = true then
          ({ self with target_addr := event.peerAddress },
           [Output.found_tpms_beacon (c_str (name mem field)) event.peerAddress
              event.peerAddressType])
        else (self, [])) ∧
      c_str (name mem field) = c_str ((field.value.bytes mem).take 15) ∧
      (0 ∉ (field.value.bytes mem).take 15 →
        c_str (name mem field) = (field.value.bytes mem).take 15 ∧
          (c_str (name mem field)).length = 15) ∧
      (c_str (name mem field)).length ≤ 15 ∧
      c_str (name mem field) <+: field.value.bytes mem ∧
      ∀ mem2 : Memory,
        (∀ i, i < 15 → read8 mem2 (field.value.data + i) = read8 mem (field.value.data + i)) →
          name mem2 field = name mem field ∧
            body mem2 event self field = body mem event self field := by
  have hlen : (field.value.bytes mem).length = field.value.size := memcpy_length _ _ _
  have h15 : ((field.value.bytes mem).take 15).length = 15 := by
    rw [List.length_take, hlen]
    unfold TPMS_MAX_NAME_LENGTH at hlong
    omega
  have hn : ¬ (field.type = MANUFACTURER_SPECIFIC_DATA ∧ event.peerAddress = self.target_addr) := by
    rw [htype]; exact fun h => types_ne h.1
  refine ⟨?_, c_str_name mem field, ?_, ?_, ?_, ?_⟩
  · rw [body_eq, if_neg hn]
    unfold is_tpms_name found
    simp [htype]
  · intro hz
    rw [c_str_name, c_str_of_no_zero _ hz]
    exact ⟨rfl, h15⟩
  · rw [c_str_name]
    have hle := c_str_length_le ((field.value.bytes mem).take 15)
    omega
  · rw [c_str_name]
    exact (c_str_isPrefix _).trans (List.take_prefix _ _)
  · intro mem2 h
    have hname : name mem2 field = name mem field :=
      name_congr mem mem2 field (fun i _ hi => h i hi)
    exact ⟨hname, body_name_congr mem mem2 self event field htype hname⟩

/-- C4 at a concrete input: the 20-byte value "AAAAAAAAAAAATPMSAAAA"; the name is its
first 15 bytes, whatever byte follows the value in memory. -/
theorem name_truncation_witness :
    c_str (name (memOf (single 9 (ascii "AAAAAAAAAAAATPMSAAAA"))) ⟨9, ⟨2, 20⟩⟩)
        = (Span.bytes (memOf (single 9 (ascii "AAAAAAAAAAAATPMSAAAA"))) ⟨2, 20⟩).take 15 ∧
      (c_str (name (memOf (single 9 (ascii "AAAAAAAAAAAATPMSAAAA"))) ⟨9, ⟨2, 20⟩⟩)).length
        = 15 :=
  (name_truncation (memOf (single 9 (ascii "AAAAAAAAAAAATPMSAAAA"))) GapDemo.init
    (eventAt aa01 22) ⟨9, ⟨2, 20⟩⟩ (by decide) (by decide)).2.2.1 (by decide)

/-! ## Tracking across fields and events -/

theorem runFields_no_match (mem : Memory) (event : AdvertisingReportEvent) (fs : List element_t) :
    ∀ self, fs.any (is_tpms_name mem) = false → event.peerAddress ≠ self.target_addr →
      runFields mem event self fs = (self, []) := by
  induction fs with
  | nil => intro self _ _; rfl
  | cons f fs ih =>
    intro self hno hpeer
    rw [List.any_cons, Bool.or_eq_false_iff] at hno
    have hb : body mem event self f = (self, []) := by
      rw [body_eq, if_neg (by simp [hno.1]), if_neg (fun h => hpeer h.2)]
    simp only [runFields, hb, ih self hno.2 hpeer, List.append_nil]

theorem state_after_match (mem : Memory) (self : GapDemo) (event : AdvertisingReportEvent)
    (h : (fields mem event.payload).any (is_tpms_name mem) = true) :
    (onAdvertisingReport mem self event).1 = { self with target_addr := event.peerAddress } := by
  rw [onAdvertisingReport_eq, runFields_state, if_pos h]

theorem single_manufacturer_field (mem : Memory) (self : GapDemo) (event : AdvertisingReportEvent)
    (m : element_t) (hm : fields mem event.payload = [m])
    (hmt : m.type = MANUFACTURER_SPECIFIC_DATA) :
    onAdvertisingReport mem self event =
      (self, if event.peerAddress = self.target_addr then [reading mem m] else []) := by
  have hnot : ¬ (is_tpms_name mem m = true) := by
    rw [is_tpms_name_iff, hmt]
    exact fun h => types_ne h.1.symm
  rw [onAdvertisingReport_eq, hm]
  simp only [runFields, body_eq, if_neg hnot, hmt, true_and, List.append_nil]
  split <;> rfl

/-- C6 (counterexample).  The freshly constructed handler tracks the all-zero address:
an advertisement from 00:00:00:00:00:00 whose payload is one manufacturer-data field,
and no name field at all, makes it print a reading.  The same holds for any other
value the member `target_addr` could start with: the advertisement from that very
address is decoded. -/
theorem fresh_handler_counterexample :
    ((fields (memOf (single 0xFF value_1_2)) ⟨0, 18⟩).any
        (is_tpms_name (memOf (single 0xFF value_1_2))) = false ∧
      onAdvertisingReport (memOf (single 0xFF value_1_2)) GapDemo.init
          ⟨address_t.zero, 0, ⟨0, 18⟩⟩ = (GapDemo.init, [Output.tire 1 2])) ∧
    ∀ a0 : address_t,
      onAdvertisingReport (memOf (single 0xFF value_1_2)) { GapDemo.init with target_addr := a0 }
          ⟨a0, 0, ⟨0, 18⟩⟩
        = ({ GapDemo.init with target_addr := a0 }, [Output.tire 1 2]) := by
  refine ⟨by decide, fun a0 => ?_⟩
  have hf : fields (memOf (single 0xFF value_1_2)) ⟨0, 18⟩ = [⟨0xFF, ⟨2, 16⟩⟩] := by decide
  have hr : reading (memOf (single 0xFF value_1_2)) ⟨0xFF, ⟨2, 16⟩⟩ = Output.tire 1 2 := by
    decide
  rw [single_manufacturer_field (memOf (single 0xFF value_1_2)) _ ⟨a0, 0, ⟨0, 18⟩⟩
    ⟨0xFF, ⟨2, 16⟩⟩ hf (by decide), hr]
  simp only [if_true]

/-- C6 (amended).  In the initial state the tracked address is the all-zero address.
For every peer address other than the all-zero address and every payload without a
matching name field, handling the advertisement in the freshly constructed handler
prints nothing and leaves the state unchanged, whatever manufacturer-data fields the
payload carries. -/
theorem fresh_handler_ignores (mem : Memory) (event : AdvertisingReportEvent)
    (hpeer : event.peerAddress ≠ address_t.zero)
    (hno : (fields mem event.payload).any (is_tpms_name mem) = false) :
    GapDemo.init.target_addr = address_t.zero ∧
      onAdvertisingReport mem GapDemo.init event = (GapDemo.init, []) := by
  refine ⟨rfl, ?_⟩
  rw [onAdvertisingReport_eq]
  exact runFields_no_match mem event _ GapDemo.init hno hpeer

/-- C6 at a concrete input: a "SmartBulb" name field followed by a manufacturer-data
field, received from AA:BB:CC:DD:EE:01 by the fresh handler. -/
theorem fresh_handler_ignores_witness :
    onAdvertisingReport (memOf (single 9 (ascii "SmartBulb") ++ single 0xFF value_1_2))
      GapDemo.init (eventAt aa01 29) = (GapDemo.init, []) :=
  (fresh_handler_ignores (memOf (single 9 (ascii "SmartBulb") ++ single 0xFF value_1_2))
    (eventAt aa01 29) (by decide) (by decide)).2

theorem reading_bytes (mem : Memory) (m : element_t) (hsize : 16 ≤ m.value.size) :
    reading mem m =
      Output.tire
        (as_int ((m.value.bytes mem).getD 8 0 + 256 * (m.value.bytes mem).getD 9 0
          + 65536 * (m.value.bytes mem).getD 10 0 + 16777216 * (m.value.bytes mem).getD 11 0))
        (as_int ((m.value.bytes mem).getD 12 0 + 256 * (m.value.bytes mem).getD 13 0
          + 65536 * (m.value.bytes mem).getD 14 0 + 16777216 * (m.value.bytes mem).getD 15 0)) := by
  unfold reading
  rw [read32_bytes mem m.value 8 (by omega), read32_bytes mem m.value 12 (by omega)]

/-- C7 (counterexample).  The beacon is identified from an advertisement of
AA:BB:CC:DD:EE:01 with address kind 0 (public); a later advertisement with the same
six bytes and address kind 1 (random) that carries a manufacturer-data field makes
the handler print a reading. -/
theorem address_kind_counterexample :
    (0 : Nat) ≠ 1 ∧
      onAdvertisingReport (memOf (single 9 (ascii "TPMS-FL"))) GapDemo.init ⟨aa01, 0, ⟨0, 9⟩⟩
        = (tracking aa01, [Output.found_tpms_beacon (ascii "TPMS-FL") aa01 0]) ∧
      onAdvertisingReport (memOf (single 0xFF value_220_25)) (tracking aa01) ⟨aa01, 1, ⟨0, 18⟩⟩
        = (tracking aa01, [Output.tire 220 25]) := by
  decide

/-- C7 (amended).  The comparison that gates decoding is equality of the six address
bytes only; the address kind is neither stored nor compared.  Once a beacon has been
identified from an advertisement with address bytes `a`, a later advertisement whose
payload is one manufacturer-data field of at least 16 bytes prints the reading decoded
from that field when its address bytes equal `a`, whatever its address kind, and
prints nothing when its address bytes differ from `a`. -/
theorem address_bytes_gate (mem1 mem2 : Memory) (self : GapDemo)
    (ev1 ev2 : AdvertisingReportEvent) (m : element_t)
    (h1 : (fields mem1 ev1.payload).any (is_tpms_name mem1) = true)
    (hm : fields mem2 ev2.payload = [m])
    (hmt : m.type = MANUFACTURER_SPECIFIC_DATA)
    (hsize : 16 ≤ m.value.size) :
    (ev2.peerAddress = ev1.peerAddress →
        onAdvertisingReport mem2 (onAdvertisingReport mem1 self ev1).1 ev2 =
          ((onAdvertisingReport mem1 self ev1).1,
           [Output.tire
              (as_int ((m.value.bytes mem2).getD 8 0 + 256 * (m.value.bytes mem2).getD 9 0
                + 65536 * (m.value.bytes mem2).getD 10 0
                + 16777216 * (m.value.bytes mem2).getD 11 0))
              (as_int ((m.value.bytes mem2).getD 12 0 + 256 * (m.value.bytes mem2).getD 13 0
                + 65536 * (m.value.bytes mem2).getD 14 0
                + 16777216 * (m.value.bytes mem2).getD 15 0))])) ∧
      (ev2.peerAddress ≠ ev1.peerAddress →
        onAdvertisingReport mem2 (onAdvertisingReport mem1 self ev1).1 ev2 =
          ((onAdvertisingReport mem1 self ev1).1, [])) := by
  have hs := state_after_match mem1 self ev1 h1
  have hr := single_manufacturer_field mem2 (onAdvertisingReport mem1 self ev1).1 ev2 m hm hmt
  constructor
  · intro he
    rw [hr, hs, if_pos he, reading_bytes mem2 m hsize]
  · intro he
    rw [hr, hs, if_neg he]

/-- C7 at a concrete input: identified as (AA:BB:CC:DD:EE:01, public), then the
manufacturer data arrives from (AA:BB:CC:DD:EE:01, random). -/
theorem address_bytes_gate_witness :
    onAdvertisingReport (memOf (single 0xFF value_220_25))
        (onAdvertisingReport (memOf (single 9 (ascii "TPMS-FL"))) GapDemo.init
          ⟨aa01, 0, ⟨0, 9⟩⟩).1 ⟨aa01, 1, ⟨0, 18⟩⟩
      = ((onAdvertisingReport (memOf (single 9 (ascii "TPMS-FL"))) GapDemo.init
          ⟨aa01, 0, ⟨0, 9⟩⟩).1, [Output.tire 220 25]) :=
  (address_bytes_gate (memOf (single 9 (ascii "TPMS-FL"))) (memOf (single 0xFF value_220_25))
    GapDemo.init ⟨aa01, 0, ⟨0, 9⟩⟩ ⟨aa01, 1, ⟨0, 18⟩⟩ ⟨0xFF, ⟨2, 16⟩⟩
    (by decide) (by decide) (by decide) (by decide)).1 (by decide)

/-- C8.  State transition of one event, for every prior state and every advertisement:
the state after the handler is the prior state with the tracked address replaced by
the peer address if some field of the payload is a matching name field, and is the
prior state otherwise; the beacon notifications printed are, in order, exactly one per
matching name field; and only complete-local-name fields can match. -/
theorem state_transition (mem : Memory) (self : GapDemo) (event : AdvertisingReportEvent) :
    (onAdvertisingReport mem self event).1 =
        (if (fields mem event.payload).any (is_tpms_name mem) = true then
          { self with target_addr := event.peerAddress }
        else self) ∧
      (onAdvertisingReport mem self event).2.filter Output.isFound =
        ((fields mem event.payload).filter (is_tpms_name mem)).map
          (fun f => Output.found_tpms_beacon (c_str (name mem f)) event.peerAddress
            event.peerAddressType) ∧
      ∀ f, is_tpms_name mem f = true →
        f.type = COMPLETE_LOCAL_NAME ∧ f.type ≠ MANUFACTURER_SPECIFIC_DATA := by
  refine ⟨?_, ?_, ?_⟩
  · rw [onAdvertisingReport_eq, runFields_state]
  · rw [onAdvertisingReport_eq, runFields_found]
    rfl
  · intro f hf
    have h := ((is_tpms_name_iff mem f).1 hf).1
    exact ⟨h, by rw [h]; exact types_ne⟩

/-- C8 at a concrete input: a payload with the name field "TPMS-FL", a flags field and
a second name field "MYTPMS", received from AA:BB:CC:DD:EE:01 by a handler that tracks
AA:BB:CC:DD:EE:02: the tracked address becomes the peer address and two beacon
notifications are printed. -/
theorem state_transition_witness :
    (onAdvertisingReport
        (memOf (single 9 (ascii "TPMS-FL") ++ [2, 1, 6] ++ single 9 (ascii "MYTPMS")))
        (tracking aa02) (eventAt aa01 20)).1 = tracking aa01 ∧
      (onAdvertisingReport
        (memOf (single 9 (ascii "TPMS-FL") ++ [2, 1, 6] ++ single 9 (ascii "MYTPMS")))
        (tracking aa02) (eventAt aa01 20)).2.filter Output.isFound
        = [Output.found_tpms_beacon (ascii "TPMS-FL") aa01 0,
           Output.found_tpms_beacon (ascii "MYTPMS") aa01 0] :=
  ⟨(state_transition
      (memOf (single 9 (ascii "TPMS-FL") ++ [2, 1, 6] ++ single 9 (ascii "MYTPMS")))
      (tracking aa02) (eventAt aa01 20)).1,
   (state_transition
      (memOf (single 9 (ascii "TPMS-FL") ++ [2, 1, 6] ++ single 9 (ascii "MYTPMS")))
      (tracking aa02) (eventAt aa01 20)).2.1⟩

theorem elements_length_le (mem : Memory) (fuel : Nat) :
    ∀ p : AdvertisingDataParser, (elements mem fuel p).length ≤ fuel := by
  induction fuel with
  | zero => intro p; simp [elements]
  | succ fuel ih =>
    intro p
    simp only [elements]
    split
    · simp only [List.length_cons]
      have := ih (p.next mem).2
      omega
    · simp

theorem elements_bounds (mem : Memory) (fuel : Nat) :
    ∀ (p : AdvertisingDataParser) (f : element_t), f ∈ elements mem fuel p →
      p.data.data + p.position + 2 ≤ f.value.data ∧
        f.value.data + f.value.size ≤ p.data.data + p.data.size := by
  induction fuel with
  | zero => intro p f hf; simp [elements] at hf
  | succ fuel ih =>
    intro p f hf
    simp only [elements] at hf
    cases hn : p.hasNext mem with
    | false => simp [hn] at hf
    | true =>
      simp only [hn, if_true, List.mem_cons] at hf
      rw [hasNext_iff] at hn
      rcases hf with hf | hf
      · subst hf
        simp only [AdvertisingDataParser.next, Span.subspan]
        omega
      · have h := ih (p.next mem).2 f hf
        simp only [AdvertisingDataParser.next] at h
        omega

theorem elements_pairwise (mem : Memory) (fuel : Nat) :
    ∀ p : AdvertisingDataParser,
      (elements mem fuel p).Pairwise (fun f g => f.value.data + f.value.size < g.value.data) := by
  induction fuel with
  | zero => intro p; simp [elements]
  | succ fuel ih =>
    intro p
    simp only [elements]
    cases hn : p.hasNext mem with
    | false => simp
    | true =>
      simp only [if_true, List.pairwise_cons]
      refine ⟨?_, ih _⟩
      intro g hg
      have h := elements_bounds mem fuel (p.next mem).2 g hg
      rw [hasNext_iff] at hn
      simp only [AdvertisingDataParser.next, Span.subspan] at h ⊢
      omega

theorem hasNext_congr (mem mem2 : Memory) (p : AdvertisingDataParser)
    (h : ∀ i, i < p.data.size → read8 mem2 (p.data.data + i) = read8 mem (p.data.data + i)) :
    p.hasNext mem2 = p.hasNext mem := by
  unfold AdvertisingDataParser.hasNext AdvertisingDataParser.current_length Span.get Span.addr
  by_cases hp : p.data.size ≤ p.position
  · simp [hp]
  · rw [if_neg hp, if_neg hp, h p.position (by omega)]

theorem next_congr (mem mem2 : Memory) (p : AdvertisingDataParser)
    (h : ∀ i, i < p.data.size → read8 mem2 (p.data.data + i) = read8 mem (p.data.data + i))
    (hn : p.hasNext mem = true) :
    p.next mem2 = p.next mem := by
  rw [hasNext_iff] at hn
  unfold AdvertisingDataParser.next AdvertisingDataParser.current_length Span.get Span.addr
  rw [h p.position (by omega), h (p.position + 1) (by omega)]

theorem elements_congr (mem mem2 : Memory) (fuel : Nat) :
    ∀ p : AdvertisingDataParser,
      (∀ i, i < p.data.size → read8 mem2 (p.data.data + i) = read8 mem (p.data.data + i)) →
        elements mem2 fuel p = elements mem fuel p := by
  induction fuel with
  | zero => intro p _; rfl
  | succ fuel ih =>
    intro p h
    simp only [elements]
    rw [hasNext_congr mem mem2 p h]
    cases hn : p.hasNext mem with
    | false => simp
    | true =>
      simp only [if_true]
      rw [next_congr mem mem2 p h hn, ih (p.next mem).2 (by simpa [AdvertisingDataParser.next] using h)]

theorem elements_stop (mem : Memory) (fuel : Nat) (p : AdvertisingDataParser)
    (h : p.hasNext mem = false) : elements mem fuel p = [] := by
  cases fuel with
  | zero => rfl
  | succ fuel => simp [elements, h]

theorem elements_layout (mem : Memory) (data : Span) (tail : List Nat)
    (htail : tail = [] ∨ ∃ L rest, tail = L :: rest ∧ (L = 0 ∨ rest.length < L)) :
    ∀ (fs : List (Nat × List Nat)) (fuel pos : Nat),
      pos ≤ data.size → data.size - pos ≤ fuel →
      memcpy mem (data.data + pos) (data.size - pos) = encodeAll fs ++ tail →
        elements mem fuel ⟨data, pos⟩ = layout (data.data + pos) fs ∧
          (layout (data.data + pos) fs).map (fun f => (f.type, f.value.bytes mem)) = fs := by
  intro fs
  induction fs with
  | nil =>
    intro fuel pos hpos hfuel hmem
    simp only [encodeAll, List.nil_append] at hmem
    refine ⟨?_, rfl⟩
    simp only [layout]
    apply elements_stop
    have hlen := memcpy_length mem (data.size - pos) (data.data + pos)
    rcases htail with ht | ⟨L, rest, ht, hL⟩
    · rw [hmem, ht] at hlen
      simp only [List.length_nil] at hlen
      unfold AdvertisingDataParser.hasNext
      simp only
      rw [if_pos (by omega)]
    · rw [ht] at hmem
      have hc := memcpy_cons mem _ _ _ _ hmem
      rw [hmem] at hlen
      simp only [List.length_cons] at hlen
      cases hh : AdvertisingDataParser.hasNext mem ⟨data, pos⟩ with
      | false => rfl
      | true =>
        rw [hasNext_iff] at hh
        simp only [AdvertisingDataParser.current_length, Span.get, Span.addr] at hh
        rw [hc.2.1] at hh
        omega
  | cons f fs ih =>
    intro fuel pos hpos hfuel hmem
    obtain ⟨t, v⟩ := f
    simp only [encodeAll, encode, List.cons_append, List.append_assoc] at hmem
    have hlen := memcpy_length mem (data.size - pos) (data.data + pos)
    rw [hmem] at hlen
    simp only [List.length_cons, List.length_append] at hlen
    have hc1 := memcpy_cons mem _ _ _ _ hmem
    have hc2 := memcpy_cons mem _ _ _ _ hc1.2.2
    have hrest := hc2.2.2
    have hsz : data.size - pos - 1 - 1 = v.length + (data.size - (pos + (1 + (v.length + 1)))) := by
      omega
    rw [hsz, memcpy_add] at hrest
    have hv : memcpy mem (data.data + pos + 1 + 1) v.length = v := by
      have := congrArg (List.take v.length) hrest
      rwa [List.take_left' (memcpy_length mem _ _), List.take_left' rfl] at this
    have hnext : memcpy mem (data.data + (pos + (1 + (v.length + 1))))
        (data.size - (pos + (1 + (v.length + 1)))) = encodeAll fs ++ tail := by
      have := congrArg (List.drop v.length) hrest
      rw [List.drop_left' (memcpy_length mem _ _), List.drop_left' rfl] at this
      rw [← this]
      congr 1
      omega
    have hh : AdvertisingDataParser.hasNext mem ⟨data, pos⟩ = true := by
      rw [hasNext_iff]
      simp only [AdvertisingDataParser.current_length, Span.get, Span.addr]
      rw [hc1.2.1]
      omega
    have hcur : AdvertisingDataParser.current_length mem ⟨data, pos⟩ = v.length + 1 := by
      simp only [AdvertisingDataParser.current_length, Span.get, Span.addr]
      exact hc1.2.1
    have hty : data.get mem (pos + 1) = t := by
      simp only [Span.get, Span.addr]
      rw [← hc2.2.1]
      congr 1
    cases fuel with
    | zero => omega
    | succ fuel =>
      have hfield : (AdvertisingDataParser.next mem ⟨data, pos⟩).1
          = ⟨t, ⟨data.data + pos + 2, v.length⟩⟩ := by
        simp only [AdvertisingDataParser.next, hcur, hty, Span.subspan]
        simp only [Nat.add_sub_cancel, Nat.add_assoc]
      have hpos2 : (AdvertisingDataParser.next mem ⟨data, pos⟩).2
          = ⟨data, pos + (1 + (v.length + 1))⟩ := by
        simp only [AdvertisingDataParser.next, hcur]
      have hih := ih fuel (pos + (1 + (v.length + 1))) (by omega) (by omega) hnext
      have haddr : data.data + (pos + (1 + (v.length + 1))) = data.data + pos + 2 + v.length := by
        omega
      rw [haddr] at hih
      simp only [elements, hh, if_true, layout, List.map_cons, hfield, hpos2]
      refine ⟨by rw [hih.1], ?_⟩
      rw [hih.2]
      simp only [Span.bytes]
      rw [show data.data + pos + 2 = data.data + pos + 1 + 1 by omega, hv]

theorem runFields_payload (mem : Memory) (event : AdvertisingReportEvent) (q : Span)
    (fs : List element_t) :
    ∀ self, runFields mem { event with payload := q } self fs = runFields mem event self fs := by
  induction fs with
  | nil => intro self; rfl
  | cons f fs ih =>
    intro self
    have hb : body mem { event with payload := q } self f = body mem event self f := rfl
    simp only [runFields, hb, ih]

theorem fields_of_encoding (mem : Memory) (payload : Span) (fs : List (Nat × List Nat))
    (tail : List Nat)
    (htail : tail = [] ∨ ∃ L rest, tail = L :: rest ∧ (L = 0 ∨ rest.length < L))
    (h : payload.bytes mem = encodeAll fs ++ tail) :
    fields mem payload = layout payload.data fs ∧
      (fields mem payload).map (fun f => (f.type, f.value.bytes mem)) = fs := by
  have hl := elements_layout mem payload tail htail fs payload.size 0 (by omega) (by omega)
    (by simpa [Span.bytes] using h)
  simp only [Nat.add_zero] at hl
  unfold fields
  rw [hl.1]
  exact ⟨rfl, hl.2⟩

/-- C10.  For every byte buffer and every prior state: the loop stops by itself within
one iteration per byte, and the handler processes exactly the field sequence of the
payload, in order.  That sequence has at most as many fields as the buffer has bytes;
every field lies inside the buffer, behind the fields before it; and the sequence is
the same for any two memories that agree on the bytes of the buffer, so that no byte
outside the buffer takes part in parsing.  When the buffer is the encoding of the
fields `fs` followed by a length byte `L` with fewer than `L` bytes after it, the
field sequence is exactly `fs`, and the handler does what it does on the buffer cut
before that length byte: same output, same state. -/
theorem parser_bounds_and_truncation (mem : Memory) (self : GapDemo)
    (event : AdvertisingReportEvent) :
    (loop mem event event.payload.size ⟨event.payload, 0⟩ self []).1.hasNext mem = false ∧
      onAdvertisingReport mem self event = runFields mem event self (fields mem event.payload) ∧
      (fields mem event.payload).length ≤ event.payload.size ∧
      (∀ f ∈ fields mem event.payload,
        event.payload.data + 2 ≤ f.value.data ∧
          f.value.data + f.value.size ≤ event.payload.data + event.payload.size) ∧
      (fields mem event.payload).Pairwise
        (fun f g => f.value.data + f.value.size < g.value.data) ∧
      (∀ mem2 : Memory,
        (∀ i, i < event.payload.size →
          read8 mem2 (event.payload.data + i) = read8 mem (event.payload.data + i)) →
        fields mem2 event.payload = fields mem event.payload) ∧
      ∀ (fs : List (Nat × List Nat)) (L : Nat) (rest : List Nat),
        event.payload.bytes mem = encodeAll fs ++ L :: rest → rest.length < L →
          (fields mem event.payload).map (fun f => (f.type, f.value.bytes mem)) = fs ∧
            fields mem event.payload = layout event.payload.data fs ∧
            onAdvertisingReport mem self event =
              onAdvertisingReport mem self
                { event with payload := ⟨event.payload.data, (encodeAll fs).length⟩ } := by
  refine ⟨?_, onAdvertisingReport_eq mem self event, ?_, ?_, ?_, ?_, ?_⟩
  · exact loop_exits mem event _ _ self [] (by simp)
  · exact elements_length_le mem _ _
  · intro f hf
    have h := elements_bounds mem _ _ f hf
    simpa using h
  · exact elements_pairwise mem _ _
  · intro mem2 h
    exact elements_congr mem mem2 _ _ h
  · intro fs L rest hbytes hL
    have hfull := fields_of_encoding mem event.payload fs (L :: rest)
      (Or.inr ⟨L, rest, rfl, Or.inr hL⟩) hbytes
    have hlen : event.payload.size = (encodeAll fs).length + (rest.length + 1) := by
      have := congrArg List.length hbytes
      simpa [Span.bytes, memcpy_length] using this
    have hcut : Span.bytes mem ⟨event.payload.data, (encodeAll fs).length⟩
        = encodeAll fs ++ [] := by
      have := congrArg (List.take (encodeAll fs).length) hbytes
      rw [List.take_left' rfl] at this
      unfold Span.bytes at this ⊢
      rw [memcpy_take mem _ _ (by omega)] at this
      simpa using this
    have hpre := fields_of_encoding mem ⟨event.payload.data, (encodeAll fs).length⟩ fs []
      (Or.inl rfl) hcut
    refine ⟨hfull.2, hfull.1, ?_⟩
    rw [onAdvertisingReport_eq, onAdvertisingReport_eq, hfull.1, hpre.1]
    exact (runFields_payload mem event _ _ self).symm

/-- C10 at a concrete input: the name field "TPMS-FL" followed by a field that declares
5 bytes where only 3 remain.  The name field is processed, the truncated field is not. -/
theorem parser_bounds_and_truncation_witness :
    fields (memOf (single 9 (ascii "TPMS-FL") ++ [5, 0xFF, 1, 2])) ⟨0, 13⟩ = [⟨9, ⟨2, 7⟩⟩] ∧
      onAdvertisingReport (memOf (single 9 (ascii "TPMS-FL") ++ [5, 0xFF, 1, 2])) GapDemo.init
          (eventAt aa01 13)
        = onAdvertisingReport (memOf (single 9 (ascii "TPMS-FL") ++ [5, 0xFF, 1, 2]))
            GapDemo.init (eventAt aa01 9) :=
  ⟨((parser_bounds_and_truncation (memOf (single 9 (ascii "TPMS-FL") ++ [5, 0xFF, 1, 2]))
      GapDemo.init (eventAt aa01 13)).2.2.2.2.2.2 [(9, ascii "TPMS-FL")] 5 [0xFF, 1, 2]
      (by decide) (by decide)).2.1,
   ((parser_bounds_and_truncation (memOf (single 9 (ascii "TPMS-FL") ++ [5, 0xFF, 1, 2]))
      GapDemo.init (eventAt aa01 13)).2.2.2.2.2.2 [(9, ascii "TPMS-FL")] 5 [0xFF, 1, 2]
      (by decide) (by decide)).2.2⟩

/-- The end-to-end scenario of the specification: "TPMS-FL" from AA:BB:CC:DD:EE:01, then
manufacturer data encoding 220 and 25 from the same address. -/
theorem end_to_end :
    onAdvertisingReport (memOf (single 9 (ascii "TPMS-FL"))) GapDemo.init (eventAt aa01 9)
        = (tracking aa01, [Output.found_tpms_beacon (ascii "TPMS-FL") aa01 0]) ∧
      onAdvertisingReport (memOf (single 0xFF value_220_25)) (tracking aa01) (eventAt aa01 18)
        = (tracking aa01, [Output.tire 220 25]) := by
  decide

end BleTpms
